import Mathlib

/-!
Shallow embedding of the OpenCog AtomSpace integration of rwkv.cpp
(`rwkv_opencog.h` / `rwkv_opencog.cpp`), together with proofs of the
behavioural properties stated in the specification.

Modelling conventions:
* `rwkv_atom_handle_t` is `uint64_t`; handles are modelled as `Nat`.  The
  counter `next_handle` starts at 1 and is bumped once per created atom, so
  no execution of this store can approach `2^64`; overflow is therefore not
  modelled.
* `float` truth/attention fields are modelled as `ℚ`.  Every float
  operation the source performs on them (copy, `std::abs`, comparison,
  `std::min`/`std::max` clamping, multiplication by `±1.0f`) is exact on
  the values exercised by the specification, so the rational model is
  order- and value-faithful for everything proved below.
* `std::unordered_map<handle, atom>` iteration order is unspecified; the
  model determinises it to insertion order (a `List Atom`).  All scanning
  functions (`pattern_match`, `forward_inference`, link dedup, decode)
  iterate in that order.
* The `name_index` (name -> vector of handles, pushed in insertion order)
  is not materialised: the lookup `add_node` performs through it — "first
  handle indexed under `name` whose atom has the requested `type`" — is
  modelled as the equivalent first-match scan of the atom list in insertion
  order (nodes are indexed under exactly their own name, atoms are never
  deleted, and link atoms can never match because their type is not a node
  type).
* NULL pointers: a NULL `name` argument is modelled as `none` (the source
  rejects it); NULL atomspace/buffer pointers and the `rwkv_context`
  argument (never dereferenced) are not representable and are dropped.
* `std::mutex` only serialises calls and has no sequential semantics; it is
  dropped.
-/

namespace RwkvOpenCog

/-- The `rwkv_atom_type_t` enumeration from `rwkv_opencog.h`, in declaration
order (the C enum values are 0..13). -/
inductive rwkv_atom_type where
  | NODE
  | LINK
  | CONCEPT_NODE
  | PREDICATE_NODE
  | NUMBER_NODE
  | VARIABLE_NODE
  | LIST_LINK
  | EVALUATION_LINK
  | IMPLICATION_LINK
  | AND_LINK
  | OR_LINK
  | NOT_LINK
  | SIMILARITY_LINK
  | INHERITANCE_LINK
deriving DecidableEq

/-- The integer value of each enumerator (C enum values, used by
`std::to_string(type)` in `create_link_signature`). -/
def atom_type_value : rwkv_atom_type → Nat
  | .NODE => 0
  | .LINK => 1
  | .CONCEPT_NODE => 2
  | .PREDICATE_NODE => 3
  | .NUMBER_NODE => 4
  | .VARIABLE_NODE => 5
  | .LIST_LINK => 6
  | .EVALUATION_LINK => 7
  | .IMPLICATION_LINK => 8
  | .AND_LINK => 9
  | .OR_LINK => 10
  | .NOT_LINK => 11
  | .SIMILARITY_LINK => 12
  | .INHERITANCE_LINK => 13

/-- `rwkv_truth_value_t`: strength and confidence. -/
structure rwkv_truth_value where
  strength : ℚ
  confidence : ℚ
deriving DecidableEq

/-- `rwkv_attention_value_t`: short/long/very-long-term importance. -/
structure rwkv_attention_value where
  sti : ℚ
  lti : ℚ
  vlti : ℚ
deriving DecidableEq

/-- Internal atom representation (`struct rwkv_atom`).  The constructor
`rwkv_atom(h, t)` initialises `tv` to `{0.5f, 0.1f}` and `av` to zeros;
`name` defaults to the empty `std::string` and `outgoing` to the empty
vector. -/
structure Atom where
  handle : Nat
  type : rwkv_atom_type
  name : String
  outgoing : List Nat
  tv : rwkv_truth_value
  av : rwkv_attention_value
deriving DecidableEq

/-- A freshly constructed node atom (`rwkv_atom(h, t)` followed by
`atom->name = node_name`). -/
def mk_node_atom (h : Nat) (t : rwkv_atom_type) (nm : String) : Atom :=
  { handle := h, type := t, name := nm, outgoing := [],
    tv := ⟨1/2, 1/10⟩, av := ⟨0, 0, 0⟩ }

/-- A freshly constructed link atom (`rwkv_atom(h, t)` followed by
`atom->outgoing.assign(...)`). -/
def mk_link_atom (h : Nat) (t : rwkv_atom_type) (og : List Nat) : Atom :=
  { handle := h, type := t, name := "", outgoing := og,
    tv := ⟨1/2, 1/10⟩, av := ⟨0, 0, 0⟩ }

/-- `struct rwkv_atomspace`: the atom store (determinised to insertion
order), the set of link-dedup signatures, and the handle counter
(initialised to 1 by the constructor). -/
structure rwkv_atomspace where
  atoms : List Atom
  link_signatures : List String
  next_handle : Nat
deriving DecidableEq

/-- `rwkv_atomspace_create()`: a fresh empty store with `next_handle = 1`. -/
def rwkv_atomspace_create : rwkv_atomspace :=
  { atoms := [], link_signatures := [], next_handle := 1 }

/-- `create_link_signature`: `to_string(type) ++ ":" ++` the outgoing
handles joined by commas. -/
def create_link_signature (t : rwkv_atom_type) (og : List Nat) : String :=
  toString (atom_type_value t) ++ ":" ++ String.intercalate "," (og.map toString)

/-- `is_node_type`. -/
def is_node_type (t : rwkv_atom_type) : Bool :=
  decide (t = .NODE ∨ t = .CONCEPT_NODE ∨ t = .PREDICATE_NODE ∨
          t = .NUMBER_NODE ∨ t = .VARIABLE_NODE)

/-- `is_link_type` is the negation of `is_node_type`. -/
def is_link_type (t : rwkv_atom_type) : Bool :=
  ! is_node_type t

/-- Membership test `atoms.find(h) != atoms.end()` used by `add_link` and
`get_atom`. -/
def atom_exists (s : rwkv_atomspace) (h : Nat) : Bool :=
  s.atoms.any (fun a => decide (a.handle = h))

/-- The dedup/creation part of `rwkv_atomspace_add_node` after the argument
checks.  The source looks `name` up in `name_index` and returns the first
indexed handle whose atom has the requested type; modelled as the first
in-insertion-order atom with that name and type (see header comment). -/
def add_node_core (s : rwkv_atomspace) (t : rwkv_atom_type) (nm : String) :
    Nat × rwkv_atomspace :=
  match s.atoms.find? (fun a => decide (a.name = nm ∧ a.type = t)) with
  | some a => (a.handle, s)
  | none =>
    (s.next_handle,
     { s with atoms := s.atoms ++ [mk_node_atom s.next_handle t nm],
              next_handle := s.next_handle + 1 })

/-- `rwkv_atomspace_add_node`.  A `none` name models a NULL `name` pointer;
note the source checks only `!name`, it never inspects the string's length. -/
def rwkv_atomspace_add_node (s : rwkv_atomspace) (t : rwkv_atom_type)
    (name : Option String) : Nat × rwkv_atomspace :=
  match name with
  | none => (0, s)
  | some nm => if is_node_type t then add_node_core s t nm else (0, s)

/-- The dedup/creation part of `rwkv_atomspace_add_link` after the argument
and referential-integrity checks.  If the signature was seen before, a
linear scan looks for an atom with this exact type and outgoing sequence
and returns its handle; if the scan finds nothing (or the signature is
new) a fresh link atom is created and the signature recorded. -/
def add_link_core (s : rwkv_atomspace) (t : rwkv_atom_type) (og : List Nat) :
    Nat × rwkv_atomspace :=
  match (if create_link_signature t og ∈ s.link_signatures then
           s.atoms.find? (fun a => decide (a.type = t ∧ a.outgoing = og))
         else none) with
  | some a => (a.handle, s)
  | none =>
    (s.next_handle,
     { s with atoms := s.atoms ++ [mk_link_atom s.next_handle t og],
              link_signatures := create_link_signature t og :: s.link_signatures,
              next_handle := s.next_handle + 1 })

/-- `rwkv_atomspace_add_link`: rejects an empty outgoing list or a non-link
type, then rejects if any outgoing handle is absent from the store, then
dedups/creates. -/
def rwkv_atomspace_add_link (s : rwkv_atomspace) (t : rwkv_atom_type)
    (og : List Nat) : Nat × rwkv_atomspace :=
  if og.isEmpty || ! is_link_type t then (0, s)
  else if og.all (fun h => atom_exists s h) then add_link_core s t og
  else (0, s)

/-- `rwkv_atomspace_get_atom`: `none` for the invalid handle 0 or an absent
handle. -/
def rwkv_atomspace_get_atom (s : rwkv_atomspace) (h : Nat) : Option Atom :=
  if h = 0 then none else s.atoms.find? (fun a => decide (a.handle = h))

/-- The clamp `std::max(0.0f, std::min(1.0f, x))` applied by
`rwkv_atom_set_truth_value`. -/
def clamp01 (x : ℚ) : ℚ := max 0 (min 1 x)

/-- `rwkv_atom_set_truth_value`: copies the truth value, then clamps both
fields into `[0,1]`.  (The source mutates through a pointer and returns
`false` only on NULL arguments, which are not representable here.) -/
def rwkv_atom_set_truth_value (a : Atom) (tv : rwkv_truth_value) : Atom :=
  { a with tv := ⟨clamp01 tv.strength, clamp01 tv.confidence⟩ }

/-- `rwkv_atom_set_attention_value`: a plain copy, no clamping. -/
def rwkv_atom_set_attention_value (a : Atom) (av : rwkv_attention_value) : Atom :=
  { a with av := av }

/-- In-place mutation of the (unique) stored atom with handle `h`, as done
through the pointer returned by `get_atom`. -/
def update_atom (s : rwkv_atomspace) (h : Nat) (g : Atom → Atom) : rwkv_atomspace :=
  { s with atoms := s.atoms.map (fun a => if a.handle = h then g a else a) }

/-- `rwkv_atom_set_truth_value` applied to the stored atom at handle `h`. -/
def atomspace_set_truth_value (s : rwkv_atomspace) (h : Nat)
    (tv : rwkv_truth_value) : rwkv_atomspace :=
  update_atom s h (fun a => rwkv_atom_set_truth_value a tv)

/-- `rwkv_atom_set_attention_value` applied to the stored atom at handle `h`. -/
def atomspace_set_attention_value (s : rwkv_atomspace) (h : Nat)
    (av : rwkv_attention_value) : rwkv_atomspace :=
  update_atom s h (fun a => rwkv_atom_set_attention_value a av)

/-- The shared shape of the scanning loops of `pattern_match` and
`forward_inference`: walk the store in iteration order, stop as soon as
the output buffer holds `maxr` results, and append `f a` when it fires. -/
def scan_collect (f : Atom → Option Nat) (maxr : Nat) :
    List Atom → List Nat → List Nat
  | [], acc => acc
  | a :: rest, acc =>
    if maxr ≤ acc.length then acc
    else
      match f a with
      | some h => scan_collect f maxr rest (acc ++ [h])
      | none => scan_collect f maxr rest acc

/-- `rwkv_atomspace_pattern_match`: returns the handles written into the
result buffer.  Zero results for the invalid pattern handle or an absent
pattern atom; otherwise collects atoms with the pattern atom's type,
excluding the pattern handle itself, up to `maxr`. -/
def rwkv_atomspace_pattern_match (s : rwkv_atomspace) (pattern : Nat)
    (maxr : Nat) : List Nat :=
  if pattern = 0 then []
  else
    match s.atoms.find? (fun a => decide (a.handle = pattern)) with
    | none => []
    | some pa =>
      scan_collect
        (fun a => if a.type = pa.type ∧ a.handle ≠ pattern then some a.handle else none)
        maxr s.atoms []

/-- The per-atom test of the forward-inference loop: an Implication link
with exactly two outgoing members whose first is the premise contributes
its second member. -/
def impl_second (premise : Nat) (a : Atom) : Option Nat :=
  match a.outgoing with
  | [x, y] =>
    if a.type = rwkv_atom_type.IMPLICATION_LINK ∧ x = premise then some y else none
  | _ => none

/-- `rwkv_atomspace_forward_inference`: `none` models the `false` return on
an invalid premise handle (NULL output pointers are not representable);
otherwise the conclusions written out, up to `maxc`. -/
def rwkv_atomspace_forward_inference (s : rwkv_atomspace) (premise : Nat)
    (maxc : Nat) : Option (List Nat) :=
  if premise = 0 then none
  else some (scan_collect (impl_second premise) maxc s.atoms [])

/-- One iteration of the `rwkv_context_to_atoms` loop at index `i`:
significant activations (`|state[i]| > 0.1`) become Concept nodes named
`"state_" ++ i` with truth `(|state[i]|, 0.8)` and attention
`(max(state[i],0), 0, 0)`. -/
def rwkv_context_to_atoms_step (state : List ℚ) (s : rwkv_atomspace) (i : Nat) :
    rwkv_atomspace :=
  let v := state.getD i 0
  if 1/10 < |v| then
    let r := rwkv_atomspace_add_node s .CONCEPT_NODE (some ("state_" ++ toString i))
    if r.1 ≠ 0 then
      match rwkv_atomspace_get_atom r.2 r.1 with
      | some _ =>
        atomspace_set_attention_value
          (atomspace_set_truth_value r.2 r.1 ⟨|v|, 4/5⟩)
          r.1 ⟨if 0 < v then v else 0, 0, 0⟩
      | none => r.2
    else r.2
  else s

/-- `rwkv_context_to_atoms`: iterates indices `0 ≤ i < min(state_len, 100)`.
(The source returns `true` whenever its pointers are non-null; the result
space is returned directly.) -/
def rwkv_context_to_atoms (s : rwkv_atomspace) (state : List ℚ) :
    rwkv_atomspace :=
  (List.range (min state.length 100)).foldl (rwkv_context_to_atoms_step state) s

/-- The test `atom->name.find("state_") == 0`: the name begins with the
six-character marker.  (Stated over the character lists so that it
computes by structural recursion.) -/
def starts_with_state (nm : String) : Bool :=
  List.isPrefixOf "state_".data nm.data

/-- The numeric value of a list of decimal digits, most significant first. -/
def digits_to_nat (ds : List Char) : Nat :=
  ds.foldl (fun acc c => acc * 10 + (c.toNat - 48)) 0

/-- The leading-digits parse performed by `std::stoul` on the text after the
`"state_"` marker (`none` models the exception swallowed by the source's
catch-all when no digit is present; sign/whitespace/overflow forms never
arise for names this system generates). -/
def parse_state_index (str : String) : Option Nat :=
  match str.data.takeWhile Char.isDigit with
  | [] => none
  | ds => some (digits_to_nat ds)

/-- One iteration of the `rwkv_atoms_to_context` loop over the stored atoms:
a Concept node named `"state_" ++ k` with `k < n` writes
`strength * (sti > 0 ? 1 : -1)` at index `k`. -/
def rwkv_atoms_to_context_step (n : Nat) (out : List ℚ) (a : Atom) : List ℚ :=
  if a.type = rwkv_atom_type.CONCEPT_NODE ∧ starts_with_state a.name then
    match parse_state_index (a.name.drop 6) with
    | some idx =>
      if idx < n then
        out.set idx (a.tv.strength * (if 0 < a.av.sti then 1 else -1))
      else out
    | none => out
  else out

/-- `rwkv_atoms_to_context`: zero-fills a buffer of length `n`, then decodes
every stored `state_<k>` Concept node into it. -/
def rwkv_atoms_to_context (s : rwkv_atomspace) (n : Nat) : List ℚ :=
  s.atoms.foldl (rwkv_atoms_to_context_step n) (List.replicate n 0)

/-- `rwkv_atomspace_get_size`: the number of stored atoms. -/
def rwkv_atomspace_get_size (s : rwkv_atomspace) : Nat :=
  s.atoms.length

/-- `rwkv_atomspace_get_node_count`: stored atoms of node kind. -/
def rwkv_atomspace_get_node_count (s : rwkv_atomspace) : Nat :=
  s.atoms.countP (fun a => is_node_type a.type)

/-- `rwkv_atomspace_get_link_count`: stored atoms of link kind. -/
def rwkv_atomspace_get_link_count (s : rwkv_atomspace) : Nat :=
  s.atoms.countP (fun a => is_link_type a.type)

/-- The AtomSpace states constructible through the public mutating API:
creation, node/link insertion, and truth/attention annotation through a
handle obtained from `get_atom`. -/
inductive Reachable : rwkv_atomspace → Prop where
  | create : Reachable rwkv_atomspace_create
  | add_node (s t nm) : Reachable s → Reachable (rwkv_atomspace_add_node s t nm).2
  | add_link (s t og) : Reachable s → Reachable (rwkv_atomspace_add_link s t og).2
  | set_tv (s h tv) : Reachable s → Reachable (atomspace_set_truth_value s h tv)
  | set_av (s h av) : Reachable s → Reachable (atomspace_set_attention_value s h av)

/-- The structural invariants every reachable AtomSpace satisfies. -/
structure SpaceInv (s : rwkv_atomspace) : Prop where
  next_pos : 0 < s.next_handle
  handle_pos : ∀ a ∈ s.atoms, 0 < a.handle
  handle_lt : ∀ a ∈ s.atoms, a.handle < s.next_handle
  handle_nodup : (s.atoms.map Atom.handle).Nodup
  link_sig : ∀ a ∈ s.atoms, is_link_type a.type = true →
    create_link_signature a.type a.outgoing ∈ s.link_signatures

/-! ### Helper lemmas -/

theorem find?_append_left_none {p : Atom → Bool} {l₁ l₂ : List Atom}
    (h : l₁.find? p = none) : (l₁ ++ l₂).find? p = l₂.find? p := by
  rw [List.find?_append, h, Option.none_or]

theorem scan_collect_eq (f : Atom → Option Nat) (m : Nat) :
    ∀ (atoms : List Atom) (acc : List Nat),
      scan_collect f m atoms acc = acc ++ (atoms.filterMap f).take (m - acc.length) := by
  intro atoms
  induction atoms with
  | nil => intro acc; simp [scan_collect]
  | cons a rest ih =>
    intro acc
    simp only [scan_collect]
    by_cases hm : m ≤ acc.length
    · rw [if_pos hm, Nat.sub_eq_zero_of_le hm]
      simp
    · rw [if_neg hm]
      have hlt : acc.length < m := Nat.lt_of_not_le hm
      cases hfa : f a with
      | some h =>
        show scan_collect f m rest (acc ++ [h]) = _
        rw [ih]
        have hsub : m - acc.length = (m - (acc.length + 1)) + 1 := by omega
        simp only [List.filterMap_cons, hfa, List.length_append, List.length_cons,
          List.length_nil, Nat.zero_add, hsub, List.take_succ_cons, List.append_assoc,
          List.singleton_append]
      | none =>
        show scan_collect f m rest acc = _
        rw [ih]
        simp only [List.filterMap_cons, hfa]

theorem add_node_core_cases (s : rwkv_atomspace) (t : rwkv_atom_type) (nm : String) :
    (∃ a, s.atoms.find? (fun a => decide (a.name = nm ∧ a.type = t)) = some a ∧
          add_node_core s t nm = (a.handle, s)) ∨
    (s.atoms.find? (fun a => decide (a.name = nm ∧ a.type = t)) = none ∧
     add_node_core s t nm = (s.next_handle,
       { s with atoms := s.atoms ++ [mk_node_atom s.next_handle t nm],
                next_handle := s.next_handle + 1 })) := by
  unfold add_node_core
  cases h : s.atoms.find? (fun a => decide (a.name = nm ∧ a.type = t)) with
  | some a => exact Or.inl ⟨a, rfl, rfl⟩
  | none => exact Or.inr ⟨rfl, rfl⟩

/-- The store after `add_link` creates a fresh link atom. -/
@[reducible] def link_created (s : rwkv_atomspace) (t : rwkv_atom_type) (og : List Nat) :
    rwkv_atomspace :=
  { s with atoms := s.atoms ++ [mk_link_atom s.next_handle t og],
           link_signatures := create_link_signature t og :: s.link_signatures,
           next_handle := s.next_handle + 1 }

theorem add_link_core_cases (s : rwkv_atomspace) (t : rwkv_atom_type) (og : List Nat) :
    (∃ a, (if create_link_signature t og ∈ s.link_signatures then
             s.atoms.find? (fun a => decide (a.type = t ∧ a.outgoing = og))
           else none) = some a ∧
          add_link_core s t og = (a.handle, s)) ∨
    ((if create_link_signature t og ∈ s.link_signatures then
        s.atoms.find? (fun a => decide (a.type = t ∧ a.outgoing = og))
      else none) = none ∧
     add_link_core s t og = (s.next_handle, link_created s t og)) := by
  unfold add_link_core
  cases h : (if create_link_signature t og ∈ s.link_signatures then
               s.atoms.find? (fun a => decide (a.type = t ∧ a.outgoing = og))
             else none) with
  | some a => exact Or.inl ⟨a, rfl, rfl⟩
  | none => exact Or.inr ⟨rfl, rfl⟩

/-! ### The invariant holds in every reachable state -/

theorem spaceInv_create : SpaceInv rwkv_atomspace_create := by
  constructor <;> simp [rwkv_atomspace_create]

theorem spaceInv_add_node (s : rwkv_atomspace) (hs : SpaceInv s)
    (t : rwkv_atom_type) (nm : Option String) :
    SpaceInv (rwkv_atomspace_add_node s t nm).2 := by
  unfold rwkv_atomspace_add_node
  match nm with
  | none => exact hs
  | some n =>
    by_cases ht : is_node_type t = true
    · simp only [ht, if_true]
      rcases add_node_core_cases s t n with ⟨a, _, heq⟩ | ⟨_, heq⟩
      · rw [heq]; exact hs
      · rw [heq]
        refine ⟨?_, ?_, ?_, ?_, ?_⟩
        · exact Nat.lt_succ_of_lt hs.next_pos
        · intro a ha
          rcases List.mem_append.1 ha with h' | h'
          · exact hs.handle_pos a h'
          · simp only [List.mem_singleton] at h'
            subst h'
            exact hs.next_pos
        · intro a ha
          rcases List.mem_append.1 ha with h' | h'
          · exact Nat.lt_succ_of_lt (hs.handle_lt a h')
          · simp only [List.mem_singleton] at h'
            subst h'
            exact Nat.lt_succ_self _
        · rw [List.map_append]
          rw [List.nodup_append]
          refine ⟨hs.handle_nodup, by simp [mk_node_atom], ?_⟩
          intro x hx hx'
          simp only [List.map_cons, List.map_nil, mk_node_atom, List.mem_singleton] at hx'
          subst hx'
          rcases List.mem_map.1 hx with ⟨a, ha, hah⟩
          have := hs.handle_lt a ha
          omega
        · intro a ha hl
          rcases List.mem_append.1 ha with h' | h'
          · exact hs.link_sig a h' hl
          · simp only [List.mem_singleton] at h'
            subst h'
            simp only [mk_node_atom] at hl
            rw [is_link_type, ht] at hl
            simp at hl
    · simp only [ht]
      simpa using hs

theorem spaceInv_add_link (s : rwkv_atomspace) (hs : SpaceInv s)
    (t : rwkv_atom_type) (og : List Nat) :
    SpaceInv (rwkv_atomspace_add_link s t og).2 := by
  unfold rwkv_atomspace_add_link
  by_cases hg : (og.isEmpty || ! is_link_type t) = true
  · simp only [hg, if_true]; exact hs
  · simp only [hg, Bool.false_eq_true, if_false]
    by_cases hex : og.all (fun h => atom_exists s h) = true
    · simp only [hex, if_true]
      rcases add_link_core_cases s t og with ⟨a, _, heq⟩ | ⟨_, heq⟩
      · rw [heq]; exact hs
      · rw [heq]
        have hlt : is_link_type t = true := by
          simp only [Bool.or_eq_true, Bool.not_eq_true', List.isEmpty_eq_true] at hg
          push_neg at hg
          simpa using hg.2
        refine ⟨?_, ?_, ?_, ?_, ?_⟩
        · exact Nat.lt_succ_of_lt hs.next_pos
        · intro a ha
          rcases List.mem_append.1 ha with h' | h'
          · exact hs.handle_pos a h'
          · simp only [List.mem_singleton] at h'
            subst h'
            exact hs.next_pos
        · intro a ha
          rcases List.mem_append.1 ha with h' | h'
          · exact Nat.lt_succ_of_lt (hs.handle_lt a h')
          · simp only [List.mem_singleton] at h'
            subst h'
            exact Nat.lt_succ_self _
        · rw [List.map_append, List.nodup_append]
          refine ⟨hs.handle_nodup, by simp [mk_link_atom], ?_⟩
          intro x hx hx'
          simp only [List.map_cons, List.map_nil, mk_link_atom, List.mem_singleton] at hx'
          subst hx'
          rcases List.mem_map.1 hx with ⟨a, ha, hah⟩
          have := hs.handle_lt a ha
          omega
        · intro a ha hl
          rcases List.mem_append.1 ha with h' | h'
          · exact List.mem_cons_of_mem _ (hs.link_sig a h' hl)
          · simp only [List.mem_singleton] at h'
            subst h'
            simp only [mk_link_atom]
            exact List.mem_cons_self _ _
    · simp only [hex, Bool.false_eq_true, if_false]
      exact hs

theorem spaceInv_update_atom (s : rwkv_atomspace) (hs : SpaceInv s) (h : Nat)
    (g : Atom → Atom)
    (hg : ∀ a, (g a).handle = a.handle ∧ (g a).type = a.type ∧ (g a).outgoing = a.outgoing) :
    SpaceInv (update_atom s h g) := by
  have hf : ∀ a : Atom,
      ((if a.handle = h then g a else a).handle = a.handle ∧
       (if a.handle = h then g a else a).type = a.type ∧
       (if a.handle = h then g a else a).outgoing = a.outgoing) := by
    intro a
    by_cases hc : a.handle = h
    · simp only [hc, if_true]; exact (hg a).imp (fun x => hc ▸ x) id
    · simp [hc]
  refine ⟨hs.next_pos, ?_, ?_, ?_, ?_⟩
  · intro a ha
    rcases List.mem_map.1 ha with ⟨b, hb, rfl⟩
    rw [(hf b).1]
    exact hs.handle_pos b hb
  · intro a ha
    rcases List.mem_map.1 ha with ⟨b, hb, rfl⟩
    rw [(hf b).1]
    exact hs.handle_lt b hb
  · show ((s.atoms.map _).map Atom.handle).Nodup
    rw [List.map_map]
    have : (Atom.handle ∘ fun a => if a.handle = h then g a else a) = Atom.handle := by
      funext a
      exact (hf a).1
    rw [this]
    exact hs.handle_nodup
  · intro a ha hl
    rcases List.mem_map.1 ha with ⟨b, hb, rfl⟩
    rw [(hf b).2.1] at hl ⊢
    rw [(hf b).2.2]
    exact hs.link_sig b hb hl

theorem reachable_spaceInv {s : rwkv_atomspace} (h : Reachable s) : SpaceInv s := by
  induction h with
  | create => exact spaceInv_create
  | add_node s t nm _ ih => exact spaceInv_add_node s ih t nm
  | add_link s t og _ ih => exact spaceInv_add_link s ih t og
  | set_tv s h tv _ ih =>
    exact spaceInv_update_atom s ih h _ (fun a => by simp [rwkv_atom_set_truth_value])
  | set_av s h av _ ih =>
    exact spaceInv_update_atom s ih h _ (fun a => by simp [rwkv_atom_set_attention_value])

/-- A successful `add_node` (node-kind type, non-null name) returns a
non-zero handle on any store satisfying the invariant. -/
theorem add_node_handle_pos (s : rwkv_atomspace) (hs : SpaceInv s)
    (t : rwkv_atom_type) (nm : String) (ht : is_node_type t = true) :
    0 < (rwkv_atomspace_add_node s t (some nm)).1 := by
  unfold rwkv_atomspace_add_node
  simp only [ht, if_true]
  rcases add_node_core_cases s t nm with ⟨a, hfind, heq⟩ | ⟨_, heq⟩
  · rw [heq]
    exact hs.handle_pos a (List.mem_of_find?_eq_some hfind)
  · rw [heq]
    exact hs.next_pos

/-! ### Claim theorems -/

/-- Claim C10: in every AtomSpace state, `get_size` equals `get_node_count`
plus `get_link_count`: every stored atom is classified as exactly one of
node kind or link kind, because `is_link_type` is the negation of
`is_node_type` over the closed type enumeration. -/
theorem size_eq_node_count_add_link_count :
    ∀ s : rwkv_atomspace,
      rwkv_atomspace_get_size s =
        rwkv_atomspace_get_node_count s + rwkv_atomspace_get_link_count s := by
  intro s
  unfold rwkv_atomspace_get_size rwkv_atomspace_get_node_count rwkv_atomspace_get_link_count
  rw [List.length_eq_countP_add_countP (fun a : Atom => is_node_type a.type) s.atoms]
  congr 1
  apply List.countP_congr
  intro a _
  simp [is_link_type]

/-- Claim C6: `set_truth_value` stores both fields clamped into `[0,1]`
(in particular strength `1.5` and confidence `-0.2` are stored as
`(1.0, 0.0)`), while `set_attention_value` stores a plain unclamped copy. -/
theorem truth_value_clamping :
    ∀ (a : Atom) (tv : rwkv_truth_value) (av : rwkv_attention_value),
      ((rwkv_atom_set_truth_value a tv).tv.strength = clamp01 tv.strength ∧
       (rwkv_atom_set_truth_value a tv).tv.confidence = clamp01 tv.confidence ∧
       0 ≤ (rwkv_atom_set_truth_value a tv).tv.strength ∧
       (rwkv_atom_set_truth_value a tv).tv.strength ≤ 1 ∧
       0 ≤ (rwkv_atom_set_truth_value a tv).tv.confidence ∧
       (rwkv_atom_set_truth_value a tv).tv.confidence ≤ 1) ∧
      (rwkv_atom_set_truth_value a ⟨3/2, -(1/5)⟩).tv = ⟨1, 0⟩ ∧
      (rwkv_atom_set_attention_value a av).av = av := by
  intro a tv av
  have hlow : ∀ x : ℚ, 0 ≤ clamp01 x := fun x => le_max_left 0 _
  have hhigh : ∀ x : ℚ, clamp01 x ≤ 1 :=
    fun x => max_le zero_le_one (min_le_left 1 x)
  refine ⟨⟨rfl, rfl, hlow _, hhigh _, hlow _, hhigh _⟩, ?_, rfl⟩
  show (⟨clamp01 (3/2), clamp01 (-(1/5))⟩ : rwkv_truth_value) = ⟨1, 0⟩
  norm_num [clamp01]

/-- Claim C3: `add_link` called with an outgoing list containing a handle
that is absent from the AtomSpace returns the invalid handle 0 and leaves
the store unchanged (in particular `get_size` is unchanged). -/
theorem add_link_referential_rejection :
    ∀ (s : rwkv_atomspace) (t : rwkv_atom_type) (og : List Nat) (h : Nat),
      h ∈ og → atom_exists s h = false →
      rwkv_atomspace_add_link s t og = (0, s) ∧
      rwkv_atomspace_get_size (rwkv_atomspace_add_link s t og).2 =
        rwkv_atomspace_get_size s := by
  intro s t og h hmem hex
  have hmain : rwkv_atomspace_add_link s t og = (0, s) := by
    unfold rwkv_atomspace_add_link
    by_cases hg : (og.isEmpty || ! is_link_type t) = true
    · simp [hg]
    · simp only [hg, Bool.false_eq_true, if_false]
      cases hall : og.all (fun h' => atom_exists s h') with
      | true =>
        have := List.all_eq_true.1 hall h hmem
        rw [hex] at this
        cases this
      | false => simp
  exact ⟨hmain, by rw [hmain]⟩

/-- Claim C3 witness: adding a link over the absent handle 5 to a fresh
AtomSpace is rejected without mutation. -/
theorem add_link_referential_rejection_witness :
    rwkv_atomspace_add_link rwkv_atomspace_create .INHERITANCE_LINK [5] =
      (0, rwkv_atomspace_create) ∧
    rwkv_atomspace_get_size
        (rwkv_atomspace_add_link rwkv_atomspace_create .INHERITANCE_LINK [5]).2 =
      rwkv_atomspace_get_size rwkv_atomspace_create :=
  add_link_referential_rejection rwkv_atomspace_create .INHERITANCE_LINK [5] 5
    (by decide) (by decide)

/-- Claim C7 counterexample: `add_node` with the empty (zero-length, non-null)
name string does NOT return the invalid handle — it creates a node: the
source checks only for a NULL `name` pointer, never for an empty string. -/
theorem add_node_empty_name_counterexample :
    (rwkv_atomspace_add_node rwkv_atomspace_create .CONCEPT_NODE (some "")).1 ≠ 0 ∧
    rwkv_atomspace_get_size
      (rwkv_atomspace_add_node rwkv_atomspace_create .CONCEPT_NODE (some "")).2 = 1 := by
  decide

/-- Claim C7 (amended): `add_node` rejects a NULL name pointer (invalid
handle, no atom added); an empty name string is accepted like any other
name — on a reachable store with a node-kind type it returns a valid
(non-zero) handle. -/
theorem add_node_null_vs_empty_name :
    ∀ (s : rwkv_atomspace) (t : rwkv_atom_type),
      rwkv_atomspace_add_node s t none = (0, s) ∧
      (Reachable s → is_node_type t = true →
        (rwkv_atomspace_add_node s t (some "")).1 ≠ 0) := by
  intro s t
  refine ⟨rfl, fun hr ht => ?_⟩
  exact Nat.pos_iff_ne_zero.1 (add_node_handle_pos s (reachable_spaceInv hr) t "" ht)

/-- Claim C7 witness: on a fresh AtomSpace with the Concept type, the NULL
name is rejected and the empty name yields a valid handle. -/
theorem add_node_null_vs_empty_name_witness :
    rwkv_atomspace_add_node rwkv_atomspace_create .CONCEPT_NODE none =
      (0, rwkv_atomspace_create) ∧
    (rwkv_atomspace_add_node rwkv_atomspace_create .CONCEPT_NODE (some "")).1 ≠ 0 :=
  ⟨(add_node_null_vs_empty_name rwkv_atomspace_create .CONCEPT_NODE).1,
   (add_node_null_vs_empty_name rwkv_atomspace_create .CONCEPT_NODE).2
     Reachable.create (by decide)⟩

/-- After `add_node` creates a node (no prior match), an immediately repeated
`add_node` with the same type and name finds exactly that node. -/
theorem add_node_core_create_then_find (s : rwkv_atomspace) (t : rwkv_atom_type)
    (nm : String)
    (hfind : s.atoms.find? (fun a => decide (a.name = nm ∧ a.type = t)) = none) :
    add_node_core
      { s with atoms := s.atoms ++ [mk_node_atom s.next_handle t nm],
               next_handle := s.next_handle + 1 } t nm
    = (s.next_handle,
       { s with atoms := s.atoms ++ [mk_node_atom s.next_handle t nm],
                next_handle := s.next_handle + 1 }) := by
  have h2 : (s.atoms ++ [mk_node_atom s.next_handle t nm]).find?
      (fun a => decide (a.name = nm ∧ a.type = t))
      = some (mk_node_atom s.next_handle t nm) := by
    rw [find?_append_left_none hfind]
    simp [List.find?, mk_node_atom]
  unfold add_node_core
  simp only [h2]
  rfl

/-- Claim C1 counterexample: the claim quantifies over every AtomSpace; on a
store that already contains the node, the two identical `add_node` calls do
return the identical valid handle, but the node count rises by zero over the
count before the first call, not by exactly one. -/
theorem add_node_idempotence_counterexample :
    ¬ (let s := (rwkv_atomspace_add_node rwkv_atomspace_create
                   .CONCEPT_NODE (some "A")).2
       let r1 := rwkv_atomspace_add_node s .CONCEPT_NODE (some "A")
       let r2 := rwkv_atomspace_add_node r1.2 .CONCEPT_NODE (some "A")
       r1.1 = r2.1 ∧ r1.1 ≠ 0 ∧
       rwkv_atomspace_get_node_count r2.2 =
         rwkv_atomspace_get_node_count s + 1) := by
  decide

/-- Claim C1 (amended): on every reachable AtomSpace, two `add_node` calls
with identical node-kind type and name return the identical valid handle
(and the second call leaves the store as the first left it); after the
second call the node count exceeds the count before the first call by
exactly one when no node with that `(type, name)` was present, and by zero
when one was — never by two. -/
theorem add_node_idempotent :
    ∀ s : rwkv_atomspace, Reachable s →
    ∀ (t : rwkv_atom_type) (nm : String), is_node_type t = true →
      rwkv_atomspace_add_node (rwkv_atomspace_add_node s t (some nm)).2 t (some nm)
        = rwkv_atomspace_add_node s t (some nm) ∧
      (rwkv_atomspace_add_node s t (some nm)).1 ≠ 0 ∧
      ((∀ a ∈ s.atoms, ¬ (a.name = nm ∧ a.type = t)) →
        rwkv_atomspace_get_node_count (rwkv_atomspace_add_node s t (some nm)).2
          = rwkv_atomspace_get_node_count s + 1) ∧
      ((∃ a ∈ s.atoms, a.name = nm ∧ a.type = t) →
        rwkv_atomspace_get_node_count (rwkv_atomspace_add_node s t (some nm)).2
          = rwkv_atomspace_get_node_count s) := by
  intro s hr t nm ht
  have hs := reachable_spaceInv hr
  have hpos := add_node_handle_pos s hs t nm ht
  refine ⟨?_, Nat.pos_iff_ne_zero.1 hpos, ?_, ?_⟩
  · unfold rwkv_atomspace_add_node
    simp only [ht, if_true]
    rcases add_node_core_cases s t nm with ⟨a, hfind, heq⟩ | ⟨hfind, heq⟩
    · -- dedup case: the state is unchanged, same computation again
      rw [heq]
      exact heq
    · -- creation case: the new node is found by the second call
      rw [heq]
      exact add_node_core_create_then_find s t nm hfind
  · intro habs
    unfold rwkv_atomspace_add_node
    simp only [ht, if_true]
    rcases add_node_core_cases s t nm with ⟨a, hfind, heq⟩ | ⟨hfind, heq⟩
    · -- dedup case contradicts the absent hypothesis
      have hmem := List.mem_of_find?_eq_some hfind
      have hp := List.find?_some hfind
      simp only [decide_eq_true_eq] at hp
      exact absurd hp (habs a hmem)
    · -- creation case: one node-kind atom is appended
      rw [heq]
      unfold rwkv_atomspace_get_node_count
      simp [List.countP_append, mk_node_atom, ht]
  · rintro ⟨a, hmem, hprop⟩
    unfold rwkv_atomspace_add_node
    simp only [ht, if_true]
    rcases add_node_core_cases s t nm with ⟨b, hfind, heq⟩ | ⟨hfind, heq⟩
    · -- dedup case: state unchanged
      rw [heq]
    · -- creation case contradicts the present hypothesis
      rw [List.find?_eq_none] at hfind
      exact absurd (by simpa using hprop) (by simpa using hfind a hmem)

/-- Claim C1 witness: a fresh AtomSpace, node type Concept, name "A". -/
theorem add_node_idempotent_witness :
    rwkv_atomspace_add_node
        (rwkv_atomspace_add_node rwkv_atomspace_create .CONCEPT_NODE (some "A")).2
        .CONCEPT_NODE (some "A")
      = rwkv_atomspace_add_node rwkv_atomspace_create .CONCEPT_NODE (some "A") ∧
    (rwkv_atomspace_add_node rwkv_atomspace_create .CONCEPT_NODE (some "A")).1 ≠ 0 ∧
    rwkv_atomspace_get_node_count
        (rwkv_atomspace_add_node rwkv_atomspace_create .CONCEPT_NODE (some "A")).2
      = rwkv_atomspace_get_node_count rwkv_atomspace_create + 1 := by
  have h := add_node_idempotent rwkv_atomspace_create Reachable.create
    .CONCEPT_NODE "A" (by decide)
  exact ⟨h.1, h.2.1, h.2.2.1 (by decide)⟩

/-- Claim C9: in every reachable AtomSpace state, stored handles are
non-zero and pairwise distinct, and whenever `add_node` or `add_link`
actually creates a new atom (the size grows), the returned handle is
strictly greater than the handle of every atom already stored. -/
theorem handle_uniqueness_monotonic :
    ∀ s : rwkv_atomspace, Reachable s →
      ((∀ a ∈ s.atoms, a.handle ≠ 0) ∧ (s.atoms.map Atom.handle).Nodup) ∧
      (∀ (t : rwkv_atom_type) (nm : Option String),
        rwkv_atomspace_get_size s <
            rwkv_atomspace_get_size (rwkv_atomspace_add_node s t nm).2 →
        ∀ a ∈ s.atoms, a.handle < (rwkv_atomspace_add_node s t nm).1) ∧
      (∀ (t : rwkv_atom_type) (og : List Nat),
        rwkv_atomspace_get_size s <
            rwkv_atomspace_get_size (rwkv_atomspace_add_link s t og).2 →
        ∀ a ∈ s.atoms, a.handle < (rwkv_atomspace_add_link s t og).1) := by
  intro s hr
  have hs := reachable_spaceInv hr
  refine ⟨⟨fun a ha => Nat.pos_iff_ne_zero.1 (hs.handle_pos a ha), hs.handle_nodup⟩,
          ?_, ?_⟩
  · intro t nm hgrow a ha
    unfold rwkv_atomspace_add_node at hgrow ⊢
    match nm with
    | none => exact absurd hgrow (Nat.lt_irrefl _)
    | some n =>
      by_cases ht : is_node_type t = true
      · simp only [ht, if_true] at hgrow ⊢
        rcases add_node_core_cases s t n with ⟨b, _, heq⟩ | ⟨_, heq⟩
        · rw [heq] at hgrow
          exact absurd hgrow (Nat.lt_irrefl _)
        · rw [heq]
          exact hs.handle_lt a ha
      · simp only [ht, Bool.false_eq_true, if_false] at hgrow
        exact absurd hgrow (Nat.lt_irrefl _)
  · intro t og hgrow a ha
    unfold rwkv_atomspace_add_link at hgrow ⊢
    by_cases hg : (og.isEmpty || ! is_link_type t) = true
    · simp only [hg, if_true] at hgrow
      exact absurd hgrow (Nat.lt_irrefl _)
    · simp only [hg, Bool.false_eq_true, if_false] at hgrow ⊢
      by_cases hex : og.all (fun h => atom_exists s h) = true
      · simp only [hex, if_true] at hgrow ⊢
        rcases add_link_core_cases s t og with ⟨b, _, heq⟩ | ⟨_, heq⟩
        · rw [heq] at hgrow
          exact absurd hgrow (Nat.lt_irrefl _)
        · rw [heq]
          exact hs.handle_lt a ha
      · simp only [hex, Bool.false_eq_true, if_false] at hgrow
        exact absurd hgrow (Nat.lt_irrefl _)

/-- Claim C9 witness: the state holding the node "A", built from a fresh
AtomSpace. -/
theorem handle_uniqueness_monotonic_witness :
    (let s := (rwkv_atomspace_add_node rwkv_atomspace_create
                 .CONCEPT_NODE (some "A")).2
     ((∀ a ∈ s.atoms, a.handle ≠ 0) ∧ (s.atoms.map Atom.handle).Nodup) ∧
     (∀ (t : rwkv_atom_type) (nm : Option String),
       rwkv_atomspace_get_size s <
           rwkv_atomspace_get_size (rwkv_atomspace_add_node s t nm).2 →
       ∀ a ∈ s.atoms, a.handle < (rwkv_atomspace_add_node s t nm).1) ∧
     (∀ (t : rwkv_atom_type) (og : List Nat),
       rwkv_atomspace_get_size s <
           rwkv_atomspace_get_size (rwkv_atomspace_add_link s t og).2 →
       ∀ a ∈ s.atoms, a.handle < (rwkv_atomspace_add_link s t og).1)) :=
  handle_uniqueness_monotonic _
    (Reachable.add_node rwkv_atomspace_create .CONCEPT_NODE (some "A")
      Reachable.create)

/-- A successful `add_link` is the `add_link_core` dedup-or-create step. -/
theorem add_link_unfold_success (s : rwkv_atomspace) (t : rwkv_atom_type)
    (og : List Nat) (hne : og.isEmpty = false) (hl : is_link_type t = true)
    (hex : og.all (fun h => atom_exists s h) = true) :
    rwkv_atomspace_add_link s t og = add_link_core s t og := by
  unfold rwkv_atomspace_add_link
  rw [hne, hl]
  simp [hex]

/-- The atom returned by the dedup branch of `add_link_core` is a stored
atom with the requested type and outgoing sequence. -/
theorem add_link_dedup_found {s : rwkv_atomspace} {t : rwkv_atom_type}
    {og : List Nat} {a : Atom}
    (hfind : (if create_link_signature t og ∈ s.link_signatures then
                s.atoms.find? (fun a => decide (a.type = t ∧ a.outgoing = og))
              else none) = some a) :
    a ∈ s.atoms ∧ a.type = t ∧ a.outgoing = og := by
  by_cases hsig : create_link_signature t og ∈ s.link_signatures
  · rw [if_pos hsig] at hfind
    have hp := List.find?_some hfind
    simp only [decide_eq_true_eq] at hp
    exact ⟨List.mem_of_find?_eq_some hfind, hp⟩
  · rw [if_neg hsig] at hfind
    cases hfind

/-- On an invariant-satisfying store, a link signature that was never
recorded means no stored atom has that type and outgoing sequence. -/
theorem add_link_no_match (s : rwkv_atomspace) (hs : SpaceInv s)
    (t : rwkv_atom_type) (og : List Nat) (hl : is_link_type t = true)
    (hsig : create_link_signature t og ∉ s.link_signatures) :
    s.atoms.find? (fun a => decide (a.type = t ∧ a.outgoing = og)) = none := by
  rw [List.find?_eq_none]
  intro a hmem hp
  simp only [decide_eq_true_eq] at hp
  have hmem2 := hs.link_sig a hmem (by rw [hp.1]; exact hl)
  rw [hp.1, hp.2] at hmem2
  exact hsig hmem2

/-- When `add_link_core` takes its creation branch on an
invariant-satisfying store, no stored atom matches the requested link. -/
theorem add_link_create_nomatch {s : rwkv_atomspace} (hs : SpaceInv s)
    {t : rwkv_atom_type} {og : List Nat} (hl : is_link_type t = true)
    (hfind : (if create_link_signature t og ∈ s.link_signatures then
                s.atoms.find? (fun a => decide (a.type = t ∧ a.outgoing = og))
              else none) = none) :
    s.atoms.find? (fun a => decide (a.type = t ∧ a.outgoing = og)) = none := by
  by_cases hsig : create_link_signature t og ∈ s.link_signatures
  · rwa [if_pos hsig] at hfind
  · exact add_link_no_match s hs t og hl hsig

/-- Handle existence is preserved by link creation. -/
theorem atom_exists_link_created (s : rwkv_atomspace) (t : rwkv_atom_type)
    (og : List Nat) (h : Nat) (hx : atom_exists s h = true) :
    atom_exists (link_created s t og) h = true := by
  unfold atom_exists at hx ⊢
  show (s.atoms ++ [mk_link_atom s.next_handle t og]).any _ = true
  rw [List.any_append, hx, Bool.true_or]

/-- After `add_link` creates a link, an immediately repeated `add_link`
with the same type and outgoing sequence dedups to exactly that link. -/
theorem add_link_into_created (s : rwkv_atomspace) (t : rwkv_atom_type)
    (og : List Nat) (hne : og.isEmpty = false) (hl : is_link_type t = true)
    (hex : og.all (fun h => atom_exists s h) = true)
    (hnone : s.atoms.find? (fun a => decide (a.type = t ∧ a.outgoing = og)) = none) :
    rwkv_atomspace_add_link (link_created s t og) t og
      = (s.next_handle, link_created s t og) := by
  have hex1 : og.all (fun h => atom_exists (link_created s t og) h) = true := by
    rw [List.all_eq_true] at hex ⊢
    exact fun h hh => atom_exists_link_created s t og h (hex h hh)
  rw [add_link_unfold_success _ t og hne hl hex1]
  unfold add_link_core
  have hsig1 : create_link_signature t og ∈ (link_created s t og).link_signatures :=
    List.mem_cons_self _ _
  rw [if_pos hsig1]
  have h2 : ((link_created s t og).atoms).find?
      (fun a => decide (a.type = t ∧ a.outgoing = og))
      = some (mk_link_atom s.next_handle t og) := by
    show (s.atoms ++ [mk_link_atom s.next_handle t og]).find? _ = _
    rw [find?_append_left_none hnone]
    simp [List.find?, mk_link_atom]
  simp only [h2]
  rfl

/-- Claim C2: on every reachable AtomSpace, for a link-kind type and a
non-empty outgoing sequence of existing handles, two `add_link` calls with
identical arguments return the identical valid handle (the second call
leaves the store as the first left it); and for two distinct existing
handles A and B, `add_link` on `[A, B]` and then on `[B, A]` returns two
different handles — element order is significant for deduplication. -/
theorem add_link_idempotent_order_significant :
    ∀ s : rwkv_atomspace, Reachable s → ∀ t : rwkv_atom_type,
      is_link_type t = true →
      (∀ og : List Nat, og ≠ [] → (∀ h ∈ og, atom_exists s h = true) →
        rwkv_atomspace_add_link (rwkv_atomspace_add_link s t og).2 t og
          = rwkv_atomspace_add_link s t og ∧
        (rwkv_atomspace_add_link s t og).1 ≠ 0) ∧
      (∀ A B : Nat, A ≠ B → atom_exists s A = true → atom_exists s B = true →
        (rwkv_atomspace_add_link (rwkv_atomspace_add_link s t [A, B]).2 t [B, A]).1
          ≠ (rwkv_atomspace_add_link s t [A, B]).1) := by
  intro s hr t hl
  have hs := reachable_spaceInv hr
  constructor
  · intro og hne hex
    have hne' : og.isEmpty = false := by
      cases og with
      | nil => exact absurd rfl hne
      | cons a l => rfl
    have hexall : og.all (fun h => atom_exists s h) = true :=
      List.all_eq_true.2 (fun h hh => hex h hh)
    rw [add_link_unfold_success s t og hne' hl hexall]
    rcases add_link_core_cases s t og with ⟨a, hfind, heq⟩ | ⟨hfind, heq⟩
    · rw [heq]
      obtain ⟨hmem, _, _⟩ := add_link_dedup_found hfind
      constructor
      · show rwkv_atomspace_add_link s t og = _
        rw [add_link_unfold_success s t og hne' hl hexall, heq]
      · exact Nat.pos_iff_ne_zero.1 (hs.handle_pos a hmem)
    · rw [heq]
      have hnone := add_link_create_nomatch hs hl hfind
      refine ⟨?_, Nat.pos_iff_ne_zero.1 hs.next_pos⟩
      show rwkv_atomspace_add_link (link_created s t og) t og = _
      exact add_link_into_created s t og hne' hl hexall hnone
  · intro A B hAB hA hB
    have hexAB : ([A, B] : List Nat).all (fun h => atom_exists s h) = true := by
      simp [hA, hB]
    have hexBA : ([B, A] : List Nat).all (fun h => atom_exists s h) = true := by
      simp [hA, hB]
    rw [add_link_unfold_success s t [A, B] rfl hl hexAB]
    rcases add_link_core_cases s t [A, B] with ⟨a, hfind, heq⟩ | ⟨hfind, heq⟩
    · rw [heq]
      obtain ⟨hamem, _, haog⟩ := add_link_dedup_found hfind
      show (rwkv_atomspace_add_link s t [B, A]).1 ≠ a.handle
      rw [add_link_unfold_success s t [B, A] rfl hl hexBA]
      rcases add_link_core_cases s t [B, A] with ⟨b, hfind2, heq2⟩ | ⟨hfind2, heq2⟩
      · rw [heq2]
        obtain ⟨hbmem, _, hbog⟩ := add_link_dedup_found hfind2
        intro hcontra
        have hba : b = a :=
          List.inj_on_of_nodup_map hs.handle_nodup hbmem hamem hcontra
        rw [hba, haog] at hbog
        simp only [List.cons.injEq, and_true] at hbog
        exact hAB hbog.1
      · rw [heq2]
        intro hcontra
        have := hs.handle_lt a hamem
        simp only at hcontra
        omega
    · rw [heq]
      have hs1 : SpaceInv (link_created s t [A, B]) := by
        have h2 := spaceInv_add_link s hs t [A, B]
        rwa [add_link_unfold_success s t [A, B] rfl hl hexAB, heq] at h2
      show (rwkv_atomspace_add_link (link_created s t [A, B]) t [B, A]).1
        ≠ s.next_handle
      have hexBA1 : ([B, A] : List Nat).all
          (fun h => atom_exists (link_created s t [A, B]) h) = true := by
        rw [List.all_eq_true] at hexBA ⊢
        exact fun h hh => atom_exists_link_created s t [A, B] h (hexBA h hh)
      rw [add_link_unfold_success _ t [B, A] rfl hl hexBA1]
      rcases add_link_core_cases (link_created s t [A, B]) t [B, A] with
        ⟨b, hfind2, heq2⟩ | ⟨hfind2, heq2⟩
      · rw [heq2]
        obtain ⟨hbmem, _, hbog⟩ := add_link_dedup_found hfind2
        intro hcontra
        have hxmem : mk_link_atom s.next_handle t [A, B]
            ∈ (link_created s t [A, B]).atoms := by
          show _ ∈ s.atoms ++ [mk_link_atom s.next_handle t [A, B]]
          exact List.mem_append_right _ (List.mem_singleton.2 rfl)
        have hbx : b = mk_link_atom s.next_handle t [A, B] :=
          List.inj_on_of_nodup_map hs1.handle_nodup hbmem hxmem hcontra
        rw [hbx] at hbog
        simp only [mk_link_atom, List.cons.injEq, and_true] at hbog
        exact hAB hbog.1
      · rw [heq2]
        show (link_created s t [A, B]).next_handle ≠ s.next_handle
        show s.next_handle + 1 ≠ s.next_handle
        omega

/-- A two-node store used to instantiate the link claims. -/
def two_node_space : rwkv_atomspace :=
  (rwkv_atomspace_add_node
    (rwkv_atomspace_add_node rwkv_atomspace_create .CONCEPT_NODE (some "A")).2
    .CONCEPT_NODE (some "B")).2

theorem two_node_space_reachable : Reachable two_node_space :=
  Reachable.add_node _ _ _ (Reachable.add_node _ _ _ Reachable.create)

/-- Claim C2 witness: on the store holding nodes "A" (handle 1) and "B"
(handle 2), the Inheritance link over [1, 2] dedups to itself and differs
from the link over [2, 1]. -/
theorem add_link_idempotent_order_significant_witness :
    rwkv_atomspace_add_link
        (rwkv_atomspace_add_link two_node_space .INHERITANCE_LINK [1, 2]).2
        .INHERITANCE_LINK [1, 2]
      = rwkv_atomspace_add_link two_node_space .INHERITANCE_LINK [1, 2] ∧
    (rwkv_atomspace_add_link two_node_space .INHERITANCE_LINK [1, 2]).1 ≠ 0 ∧
    (rwkv_atomspace_add_link
        (rwkv_atomspace_add_link two_node_space .INHERITANCE_LINK [1, 2]).2
        .INHERITANCE_LINK [2, 1]).1
      ≠ (rwkv_atomspace_add_link two_node_space .INHERITANCE_LINK [1, 2]).1 := by
  have h := add_link_idempotent_order_significant two_node_space
    two_node_space_reachable .INHERITANCE_LINK (by decide)
  have h1 := h.1 [1, 2] (by decide) (by decide)
  exact ⟨h1.1, h1.2, h.2 1 2 (by decide) (by decide) (by decide)⟩

/-- `impl_second` fires exactly on binary Implication links whose first
member is the premise. -/
theorem impl_second_eq_some {premise c : Nat} {a : Atom} :
    impl_second premise a = some c ↔
      (a.type = rwkv_atom_type.IMPLICATION_LINK ∧ a.outgoing = [premise, c]) := by
  unfold impl_second
  rcases hog : a.outgoing with _ | ⟨x, _ | ⟨y, _ | ⟨z, r⟩⟩⟩
  · simp
  · simp
  · show (if a.type = rwkv_atom_type.IMPLICATION_LINK ∧ x = premise
          then some y else none) = some c ↔
      a.type = rwkv_atom_type.IMPLICATION_LINK ∧ [x, y] = [premise, c]
    by_cases hc : a.type = rwkv_atom_type.IMPLICATION_LINK ∧ x = premise
    · rw [if_pos hc]
      simp [hc.1, hc.2]
    · rw [if_neg hc]
      constructor
      · intro hcon
        exact Option.noConfusion hcon
      · rintro ⟨h1, h2⟩
        simp only [List.cons.injEq, and_true] at h2
        exact absurd ⟨h1, h2.1⟩ hc
  · simp

/-- Claim C4: for every AtomSpace and non-zero premise handle,
`forward_inference` succeeds, its conclusion buffer is the first
`max_conclusions` (in storage iteration order) of the second outgoing
elements of the binary Implication links whose first element is the
premise, and — whenever the buffer is not truncated — it contains exactly
those second elements: one inference hop, no chaining. -/
theorem forward_inference_one_hop :
    ∀ (s : rwkv_atomspace) (premise maxc : Nat), premise ≠ 0 →
      ∃ L, rwkv_atomspace_forward_inference s premise maxc = some L ∧
        L = (s.atoms.filterMap (impl_second premise)).take maxc ∧
        ((s.atoms.filterMap (impl_second premise)).length ≤ maxc →
          ∀ c, c ∈ L ↔ ∃ a ∈ s.atoms,
            a.type = rwkv_atom_type.IMPLICATION_LINK ∧ a.outgoing = [premise, c]) := by
  intro s premise maxc hp
  refine ⟨scan_collect (impl_second premise) maxc s.atoms [], ?_, ?_, ?_⟩
  · unfold rwkv_atomspace_forward_inference
    rw [if_neg hp]
  · rw [scan_collect_eq]
    simp
  · intro hlen c
    rw [scan_collect_eq]
    simp only [List.nil_append, List.length_nil, Nat.sub_zero]
    rw [List.take_of_length_le hlen]
    simp only [List.mem_filterMap, impl_second_eq_some]

/-- The store holding Concept nodes a (1), b (2), c (3) and the Implication
links 1→2 (handle 4) and 2→3 (handle 5). -/
def chain_space : rwkv_atomspace :=
  (rwkv_atomspace_add_link
    (rwkv_atomspace_add_link
      (rwkv_atomspace_add_node
        (rwkv_atomspace_add_node
          (rwkv_atomspace_add_node rwkv_atomspace_create
            .CONCEPT_NODE (some "a")).2
          .CONCEPT_NODE (some "b")).2
        .CONCEPT_NODE (some "c")).2
      .IMPLICATION_LINK [1, 2]).2
    .IMPLICATION_LINK [2, 3]).2

/-- Claim C4 witness: with only Implication(1→2) and Implication(2→3)
stored, inference from premise 1 yields exactly [2]; conclusion 2 is
justified by a stored implication and 3 is not reachable (no chaining). -/
theorem forward_inference_one_hop_witness :
    rwkv_atomspace_forward_inference chain_space 1 10 = some [2] ∧
    (2 ∈ ([2] : List Nat) ↔ ∃ a ∈ chain_space.atoms,
      a.type = rwkv_atom_type.IMPLICATION_LINK ∧ a.outgoing = [1, 2]) ∧
    (3 ∈ ([2] : List Nat) ↔ ∃ a ∈ chain_space.atoms,
      a.type = rwkv_atom_type.IMPLICATION_LINK ∧ a.outgoing = [1, 3]) := by
  obtain ⟨L, h1, h2, h3⟩ := forward_inference_one_hop chain_space 1 10 (by decide)
  have hL : L = [2] := by
    rw [h2]
    decide
  rw [hL] at h1 h3
  exact ⟨h1, h3 (by decide) 2, h3 (by decide) 3⟩

/-- The per-atom test of the pattern-match loop fires exactly on stored
atoms with the pattern's type and a different handle. -/
theorem pattern_entry_eq_some {pt : rwkv_atom_type} {pattern h : Nat} {a : Atom} :
    (if a.type = pt ∧ a.handle ≠ pattern then some a.handle else none) = some h ↔
      (a.type = pt ∧ a.handle ≠ pattern ∧ a.handle = h) := by
  by_cases hc : a.type = pt ∧ a.handle ≠ pattern
  · rw [if_pos hc]
    simp [hc.1, hc.2]
  · rw [if_neg hc]
    constructor
    · intro hcon
      exact Option.noConfusion hcon
    · rintro ⟨h1, h2, h3⟩
      exact absurd ⟨h1, h2⟩ hc

/-- Claim C5: on every reachable AtomSpace, when no atom is stored at the
pattern handle `pattern_match` returns zero results; when an atom is stored
there, the result buffer is the first `max_results` (in storage iteration
order) handles of atoms whose type equals the pattern atom's type and whose
handle differs from the pattern handle — and, whenever the buffer is not
truncated, it contains exactly those handles, with names, outgoing
structure, and truth/attention values playing no role. -/
theorem pattern_match_type_equality :
    ∀ (s : rwkv_atomspace) (pattern maxr : Nat), Reachable s →
      ((∀ a ∈ s.atoms, a.handle ≠ pattern) →
        rwkv_atomspace_pattern_match s pattern maxr = []) ∧
      (∀ pa ∈ s.atoms, pa.handle = pattern →
        rwkv_atomspace_pattern_match s pattern maxr =
          (s.atoms.filterMap
            (fun a => if a.type = pa.type ∧ a.handle ≠ pattern
                      then some a.handle else none)).take maxr ∧
        ((s.atoms.filterMap
            (fun a => if a.type = pa.type ∧ a.handle ≠ pattern
                      then some a.handle else none)).length ≤ maxr →
          ∀ h, h ∈ rwkv_atomspace_pattern_match s pattern maxr ↔
            ∃ a ∈ s.atoms, a.type = pa.type ∧ a.handle ≠ pattern ∧ a.handle = h)) := by
  intro s pattern maxr hr
  have hs := reachable_spaceInv hr
  constructor
  · intro habs
    unfold rwkv_atomspace_pattern_match
    by_cases hp : pattern = 0
    · rw [if_pos hp]
    · rw [if_neg hp]
      have hnone : s.atoms.find? (fun a => decide (a.handle = pattern)) = none := by
        rw [List.find?_eq_none]
        intro a hmem hpa
        simp only [decide_eq_true_eq] at hpa
        exact habs a hmem hpa
      rw [hnone]
  · intro pa hpamem hpah
    have hp : pattern ≠ 0 := by
      have := hs.handle_pos pa hpamem
      omega
    have hfind : s.atoms.find? (fun a => decide (a.handle = pattern)) = some pa := by
      cases hfb : s.atoms.find? (fun a => decide (a.handle = pattern)) with
      | none =>
        rw [List.find?_eq_none] at hfb
        exact absurd (by simp [hpah]) (hfb pa hpamem)
      | some b =>
        have hbmem := List.mem_of_find?_eq_some hfb
        have hbp := List.find?_some hfb
        simp only [decide_eq_true_eq] at hbp
        have hbpa : b = pa :=
          List.inj_on_of_nodup_map hs.handle_nodup hbmem hpamem (by rw [hbp, hpah])
        rw [hbpa]
    have hunfold : rwkv_atomspace_pattern_match s pattern maxr =
        scan_collect (fun a => if a.type = pa.type ∧ a.handle ≠ pattern
                               then some a.handle else none) maxr s.atoms [] := by
      unfold rwkv_atomspace_pattern_match
      rw [if_neg hp, hfind]
    constructor
    · rw [hunfold, scan_collect_eq]
      simp
    · intro hlen h
      rw [hunfold, scan_collect_eq]
      simp only [List.nil_append, List.length_nil, Nat.sub_zero]
      rw [List.take_of_length_le hlen]
      simp only [List.mem_filterMap, pattern_entry_eq_some]

/-- The store holding Concept nodes A (1), B (2), C (3) and the Predicate
node P (4). -/
def pm_space : rwkv_atomspace :=
  (rwkv_atomspace_add_node
    (rwkv_atomspace_add_node
      (rwkv_atomspace_add_node
        (rwkv_atomspace_add_node rwkv_atomspace_create
          .CONCEPT_NODE (some "A")).2
        .CONCEPT_NODE (some "B")).2
      .CONCEPT_NODE (some "C")).2
    .PREDICATE_NODE (some "P")).2

theorem pm_space_reachable : Reachable pm_space :=
  Reachable.add_node _ _ _
    (Reachable.add_node _ _ _
      (Reachable.add_node _ _ _
        (Reachable.add_node _ _ _ Reachable.create)))

/-- Claim C5 witness: matching against Concept node A (handle 1) yields
exactly the Concept nodes B and C (handles 2 and 3), excluding A itself
and the Predicate node P; an absent pattern handle yields zero results. -/
theorem pattern_match_type_equality_witness :
    rwkv_atomspace_pattern_match pm_space 1 10 = [2, 3] ∧
    rwkv_atomspace_pattern_match pm_space 99 10 = [] := by
  obtain ⟨_, hmain⟩ := pattern_match_type_equality pm_space 1 10 pm_space_reachable
  have h := hmain (mk_node_atom 1 .CONCEPT_NODE "A") (List.Mem.head _) rfl
  constructor
  · rw [h.1]
    decide
  · exact (pattern_match_type_equality pm_space 99 10 pm_space_reachable).1 (by decide)

/-- One encode iteration at an insignificant index leaves the store alone. -/
theorem encode_step_skip (state : List ℚ) (s : rwkv_atomspace) (i : Nat)
    (h : ¬ (1/10 < |state.getD i 0|)) :
    rwkv_context_to_atoms_step state s i = s := by
  unfold rwkv_context_to_atoms_step
  exact if_neg h

/-- Encoding over a block of insignificant indices is the identity. -/
theorem encode_skip (state : List ℚ) :
    ∀ (l : List Nat) (s : rwkv_atomspace),
      (∀ i ∈ l, ¬ (1/10 < |state.getD i 0|)) →
      l.foldl (rwkv_context_to_atoms_step state) s = s := by
  intro l
  induction l with
  | nil => intro s _; rfl
  | cons a rest ih =>
    intro s h
    rw [List.foldl_cons, encode_step_skip state s a (h a (List.mem_cons_self a rest))]
    exact ih s (fun i hi => h i (List.mem_cons_of_mem a hi))

/-- The store produced by encoding a vector whose only significant entry is
value 1/2 at index 3. -/
def spike_space : rwkv_atomspace :=
  { atoms := [{ handle := 1, type := .CONCEPT_NODE, name := "state_3",
                outgoing := [], tv := ⟨1/2, 4/5⟩, av := ⟨1/2, 0, 0⟩ }],
    link_signatures := [], next_handle := 2 }

theorem encode_step_spike (state : List ℚ) (h3 : state.getD 3 0 = 1/2) :
    rwkv_context_to_atoms_step state rwkv_atomspace_create 3 = spike_space := by
  have habs : |(1:ℚ)/2| = 1/2 := abs_of_pos (by norm_num)
  have hcond : (1:ℚ)/10 < |(1:ℚ)/2| := by rw [habs]; norm_num
  have hc1 : clamp01 |(1:ℚ)/2| = 1/2 := by
    rw [habs]
    unfold clamp01
    rw [min_eq_right (by norm_num : (1:ℚ)/2 ≤ 1),
        max_eq_right (by norm_num : (0:ℚ) ≤ 1/2)]
  have hc2 : clamp01 ((4:ℚ)/5) = 4/5 := by
    unfold clamp01
    rw [min_eq_right (by norm_num : (4:ℚ)/5 ≤ 1),
        max_eq_right (by norm_num : (0:ℚ) ≤ 4/5)]
  have hpos : (0:ℚ) < 1/2 := by norm_num
  unfold rwkv_context_to_atoms_step
  simp only [h3, hcond, if_true, hpos]
  simp only [rwkv_atomspace_add_node, add_node_core, rwkv_atomspace_create,
    List.find?, is_node_type, atomspace_set_truth_value,
    atomspace_set_attention_value, update_atom, rwkv_atom_set_truth_value,
    rwkv_atom_set_attention_value, rwkv_atomspace_get_atom, mk_node_atom,
    List.map, hc1, hc2]
  norm_num [spike_space, hc1, hc2]
  rfl

theorem encode_spike (state : List ℚ) (hn : 3 < state.length)
    (h3 : state.getD 3 0 = 1/2)
    (h0 : ∀ i, i < state.length → i ≠ 3 → state.getD i 0 = 0) :
    rwkv_context_to_atoms rwkv_atomspace_create state = spike_space := by
  have h0' : ∀ i, i ≠ 3 → ¬ ((1:ℚ)/10 < |state.getD i 0|) := by
    intro i hi
    by_cases hlt : i < state.length
    · rw [h0 i hlt hi]
      norm_num
    · rw [List.getD_eq_default _ _ (Nat.le_of_not_lt hlt)]
      norm_num
  unfold rwkv_context_to_atoms
  have hmin : min state.length 100 = 4 + (min state.length 100 - 4) := by omega
  rw [hmin, List.range_add, List.foldl_append]
  have hr4 : List.range 4 = [0, 1, 2, 3] := rfl
  rw [hr4]
  have hfold4 : List.foldl (rwkv_context_to_atoms_step state)
      rwkv_atomspace_create [0, 1, 2, 3] = spike_space := by
    simp only [List.foldl_cons, List.foldl_nil]
    rw [encode_step_skip state _ 0 (h0' 0 (by omega)),
        encode_step_skip state _ 1 (h0' 1 (by omega)),
        encode_step_skip state _ 2 (h0' 2 (by omega)),
        encode_step_spike state h3]
  rw [hfold4]
  apply encode_skip
  intro i hi
  rcases List.mem_map.1 hi with ⟨x, _, rfl⟩
  exact h0' (4 + x) (by omega)

theorem decode_spike (n : Nat) (hn : 3 < n) :
    rwkv_atoms_to_context spike_space n = (List.replicate n 0).set 3 (1/2) := by
  unfold rwkv_atoms_to_context
  rw [show spike_space.atoms
        = [{ handle := 1, type := .CONCEPT_NODE, name := "state_3", outgoing := [],
             tv := ⟨1/2, 4/5⟩, av := ⟨1/2, 0, 0⟩ }] from rfl,
      List.foldl_cons, List.foldl_nil]
  show (if (3:Nat) < n then (List.replicate n (0:ℚ)).set 3
        ((1:ℚ)/2 * (if 0 < ((1:ℚ)/2) then 1 else -1)) else List.replicate n 0) = _
  rw [if_pos hn, if_pos (by norm_num : (0:ℚ) < 1/2), mul_one]

theorem encode_small (state : List ℚ) (hsmall : ∀ v ∈ state, |v| ≤ 1/10) :
    rwkv_context_to_atoms rwkv_atomspace_create state = rwkv_atomspace_create := by
  unfold rwkv_context_to_atoms
  apply encode_skip
  intro i _
  have hle : |state.getD i 0| ≤ 1/10 := by
    by_cases hlt : i < state.length
    · rw [List.getD_eq_getElem _ _ hlt]
      exact hsmall _ (List.getElem_mem hlt)
    · rw [List.getD_eq_default _ _ (Nat.le_of_not_lt hlt)]
      norm_num
  exact not_lt.2 hle

/-- Claim C8: encoding a state vector whose only entry of significant
magnitude is 1/2 at index 3 into an empty AtomSpace produces a Concept
node named "state_3" with truth (1/2, 4/5), and decoding into a buffer of
the same length recovers 1/2 at index 3; encoding a vector whose entries
all have magnitude at most 1/10 produces zero Concept nodes, and decoding
then yields the all-zero vector of the same length. -/
theorem state_bridge_round_trip :
    ∀ state : List ℚ,
      (3 < state.length → state.getD 3 0 = 1/2 →
        (∀ i, i < state.length → i ≠ 3 → state.getD i 0 = 0) →
        (∃ a ∈ (rwkv_context_to_atoms rwkv_atomspace_create state).atoms,
            a.type = rwkv_atom_type.CONCEPT_NODE ∧ a.name = "state_3" ∧
            a.tv.strength = 1/2 ∧ a.tv.confidence = 4/5) ∧
        (rwkv_atoms_to_context (rwkv_context_to_atoms rwkv_atomspace_create state)
            state.length).getD 3 0 = 1/2) ∧
      ((∀ v ∈ state, |v| ≤ 1/10) →
        (rwkv_context_to_atoms rwkv_atomspace_create state).atoms.countP
            (fun a => decide (a.type = rwkv_atom_type.CONCEPT_NODE)) = 0 ∧
        rwkv_atoms_to_context (rwkv_context_to_atoms rwkv_atomspace_create state)
            state.length = List.replicate state.length 0) := by
  intro state
  constructor
  · intro hn h3 h0
    rw [encode_spike state hn h3 h0]
    constructor
    · exact ⟨_, List.Mem.head _, rfl, rfl, rfl, rfl⟩
    · rw [decode_spike state.length hn]
      rw [List.getD_eq_getElem _ _ (by simp [hn])]
      exact List.getElem_set_self _
  · intro hsmall
    rw [encode_small state hsmall]
    exact ⟨rfl, rfl⟩

/-- Claim C8 witness: the concrete vectors [0, 0, 0, 1/2, 0] and
[0, 1/10, -1/10]. -/
theorem state_bridge_round_trip_witness :
    ((∃ a ∈ (rwkv_context_to_atoms rwkv_atomspace_create
          [0, 0, 0, (1:ℚ)/2, 0]).atoms,
        a.type = rwkv_atom_type.CONCEPT_NODE ∧ a.name = "state_3" ∧
        a.tv.strength = 1/2 ∧ a.tv.confidence = 4/5) ∧
      (rwkv_atoms_to_context
          (rwkv_context_to_atoms rwkv_atomspace_create [0, 0, 0, (1:ℚ)/2, 0])
          5).getD 3 0 = 1/2) ∧
    ((rwkv_context_to_atoms rwkv_atomspace_create
        [0, (1:ℚ)/10, -((1:ℚ)/10)]).atoms.countP
          (fun a => decide (a.type = rwkv_atom_type.CONCEPT_NODE)) = 0 ∧
      rwkv_atoms_to_context
          (rwkv_context_to_atoms rwkv_atomspace_create [0, (1:ℚ)/10, -((1:ℚ)/10)])
          3 = List.replicate 3 0) := by
  have h0 : ∀ i, i < ([0, 0, 0, (1:ℚ)/2, 0] : List ℚ).length → i ≠ 3 →
      ([0, 0, 0, (1:ℚ)/2, 0] : List ℚ).getD i 0 = 0 := by
    intro i hlt hne
    have h5 : i < 5 := by simpa using hlt
    interval_cases i
    · rfl
    · rfl
    · rfl
    · exact absurd rfl hne
    · rfl
  have hs : ∀ v ∈ ([0, (1:ℚ)/10, -((1:ℚ)/10)] : List ℚ), |v| ≤ 1/10 := by
    intro v hv
    simp only [List.mem_cons, List.not_mem_nil, or_false] at hv
    rcases hv with rfl | rfl | rfl
    · rw [abs_zero]
      norm_num
    · rw [abs_of_nonneg (by norm_num : (0:ℚ) ≤ 1/10)]
    · rw [abs_neg, abs_of_nonneg (by norm_num : (0:ℚ) ≤ 1/10)]
  exact ⟨(state_bridge_round_trip [0, 0, 0, (1:ℚ)/2, 0]).1 (by decide) rfl h0,
         (state_bridge_round_trip [0, (1:ℚ)/10, -((1:ℚ)/10)]).2 hs⟩

end RwkvOpenCog
